import Mathlib

/-!
Shallow embedding of the gofs multipart-upload tracking store
(`inMemoryDB` and friends) and of the storage `Interactor`'s
multipart-upload entry points, with theorems about the store contract.

Go `int64` values are modelled as `Int` (all arithmetic here is small
comparisons, no wrap-around is reachable).  The Go `map[string]...` of
records is modelled as a function `String → Option InMemoryRecord`; the
per-record `map[int64]inMemoryPart` is modelled as an association list
with Go-map insert semantics (replace on existing key).  The mutex in
`inMemoryDB` is concurrency plumbing with no sequential semantics and is
not modelled; each operation is the body of its critical section.
Mutating operations return the error (`Option GofsErr`, `none` meaning
success) paired with the store after the call; error paths in the Go
code return before touching the map, so they pair the error with the
unchanged store.
-/

/-- Predefined errors of the gofs package (part_000). -/
inductive GofsErr where
  | errNotFound
  | errAlreadyExists
  | errFileKeyEmpty
  | errInvalidTotalParts
deriving DecidableEq, Repr

/-- Classification used by the spec's error taxonomy: `ErrFileKeyEmpty` and
`ErrInvalidTotalParts` are the `InvalidArgument`-class errors. -/
def GofsErr.isInvalidArgument : GofsErr → Bool
  | .errFileKeyEmpty => true
  | .errInvalidTotalParts => true
  | _ => false

/-- Embedding of Go struct `inMemoryPart`: one received chunk. -/
structure InMemoryPart where
  partNumber : Int
  eTag : String
deriving DecidableEq, Repr

/-- Embedding of Go struct `inMemoryRecord`: uploadID, declared total part
count, and the parts map (association list keyed by part number, mirroring
`map[int64]inMemoryPart`). -/
structure InMemoryRecord where
  uploadID : String
  totalParts : Int
  parts : List (Int × InMemoryPart)
deriving DecidableEq, Repr

/-- The records map of Go struct `inMemoryDB` (`map[string]inMemoryRecord`). -/
def InMemoryDB : Type := String → Option InMemoryRecord

/-- Go map insert semantics for the parts map: replace the entry whose key
matches, else append the new binding. -/
def mapInsert (p : Int) (v : InMemoryPart) : List (Int × InMemoryPart) → List (Int × InMemoryPart)
  | [] => [(p, v)]
  | (q, w) :: rest => if q = p then (p, v) :: rest else (q, w) :: mapInsert p v rest

/-- Go map lookup for the parts map. -/
def mapFind (p : Int) : List (Int × InMemoryPart) → Option InMemoryPart
  | [] => none
  | (q, w) :: rest => if q = p then some w else mapFind p rest

/-- Key-membership test for the parts map. -/
def hasKey (m : List (Int × InMemoryPart)) (p : Int) : Bool :=
  m.any (fun qw => qw.1 = p)

/-- Go map insert on the records map. -/
def dbInsert (db : InMemoryDB) (key : String) (r : InMemoryRecord) : InMemoryDB :=
  fun k => if k = key then some r else db k

/-- Go `delete` on the records map. -/
def dbErase (db : InMemoryDB) (key : String) : InMemoryDB :=
  fun k => if k = key then none else db k

/-- The store produced by `NewInMemoryDB`: an empty records map. -/
def emptyDB : InMemoryDB := fun _ => none

/-- Embedding of `inMemoryDB.CreateUpload` (part_001): validates the key and
`totalParts`, rejects duplicate keys, otherwise installs a record with an
empty parts map. -/
def createUpload (db : InMemoryDB) (key uploadID : String) (totalParts : Int) :
    Option GofsErr × InMemoryDB :=
  if key = "" then (some .errFileKeyEmpty, db)
  else if totalParts ≤ 0 ∨ 10000 < totalParts then (some .errInvalidTotalParts, db)
  else match db key with
    | some _ => (some .errAlreadyExists, db)
    | none => (none, dbInsert db key ⟨uploadID, totalParts, []⟩)

/-- Embedding of `inMemoryDB.AddPart` (part_001): fails with `ErrNotFound`
when the key has no record, otherwise inserts/overwrites the part entry.
No bounds check on `partNumber` is performed, as in the source. -/
def addPart (db : InMemoryDB) (key : String) (partNumber : Int) (eTag : String) :
    Option GofsErr × InMemoryDB :=
  match db key with
  | none => (some .errNotFound, db)
  | some record =>
      (none, dbInsert db key
        { record with parts := mapInsert partNumber ⟨partNumber, eTag⟩ record.parts })

/-- Embedding of `inMemoryDB.CompleteUpload` (part_001): fails with
`ErrNotFound` when absent, otherwise deletes the record. -/
def completeUpload (db : InMemoryDB) (key : String) : Option GofsErr × InMemoryDB :=
  match db key with
  | none => (some .errNotFound, db)
  | some _ => (none, dbErase db key)

/-- Embedding of `inMemoryDB.AbortUpload` (part_001): unconditionally deletes
the record (Go `delete` on a missing key is a no-op) and returns no error. -/
def abortUpload (db : InMemoryDB) (key : String) : Option GofsErr × InMemoryDB :=
  (none, dbErase db key)

/-- Embedding of `inMemoryDB.GetUploadID` (part_001). -/
def getUploadID (db : InMemoryDB) (key : String) : Except GofsErr String :=
  match db key with
  | none => .error .errNotFound
  | some record => .ok record.uploadID

/-- Embedding of `inMemoryDB.GetParts` (part_001): returns the part values of
the record's parts map (Go iterates the map in unspecified order; the
association-list order stands in for one such order). -/
def getParts (db : InMemoryDB) (key : String) : Except GofsErr (List InMemoryPart) :=
  match db key with
  | none => .error .errNotFound
  | some record => .ok (record.parts.map Prod.snd)

/-- Embedding of `inMemoryDB.GetStatus` (part_001): returns the record itself,
which implements the `UploadStatus` interface. -/
def getStatus (db : InMemoryDB) (key : String) : Except GofsErr InMemoryRecord :=
  match db key with
  | none => .error .errNotFound
  | some record => .ok record

/-- Embedding of `inMemoryRecord.IsCompleted`: `int64(len(record.parts)) == record.totalParts`. -/
def InMemoryRecord.IsCompleted (r : InMemoryRecord) : Bool :=
  (r.parts.length : Int) == r.totalParts

/-- Embedding of `inMemoryRecord.CompletedPartsNum`: `int64(len(record.parts))`. -/
def InMemoryRecord.CompletedPartsNum (r : InMemoryRecord) : Int :=
  (r.parts.length : Int)

/-- Embedding of `inMemoryRecord.TotalParts`. -/
def InMemoryRecord.TotalPartsFn (r : InMemoryRecord) : Int :=
  r.totalParts

/-- Embedding of `inMemoryRecord.UploadID`. -/
def InMemoryRecord.UploadIDFn (r : InMemoryRecord) : String :=
  r.uploadID

/-- C2: `CreateUpload` fails with an `InvalidArgument`-class error when the key
is empty (regardless of the other arguments) or when `totalParts ≤ 0` or
`totalParts > 10000`; for every non-empty key absent from the store,
`totalParts = 1` and `totalParts = 10000` succeed.  The store is returned
unchanged on the error paths. -/
theorem createUpload_invalid_and_boundary (db : InMemoryDB) (k u : String) (n : Int) :
    (k = "" → createUpload db k u n = (some GofsErr.errFileKeyEmpty, db)) ∧
    ((n ≤ 0 ∨ 10000 < n) →
      ∃ e, createUpload db k u n = (some e, db) ∧ e.isInvalidArgument = true) ∧
    (k ≠ "" → db k = none → (n = 1 ∨ n = 10000) →
      ∃ db', createUpload db k u n = (none, db')) := by
  refine ⟨fun hk => ?_, fun hn => ?_, fun hk habs hn => ?_⟩
  · unfold createUpload
    rw [if_pos hk]
  · by_cases hk : k = ""
    · exact ⟨.errFileKeyEmpty, by unfold createUpload; rw [if_pos hk], rfl⟩
    · exact ⟨.errInvalidTotalParts, by unfold createUpload; rw [if_neg hk, if_pos hn], rfl⟩
  · have hn' : ¬ (n ≤ 0 ∨ 10000 < n) := by rcases hn with rfl | rfl <;> decide
    refine ⟨dbInsert db k ⟨u, n, []⟩, ?_⟩
    unfold createUpload
    rw [if_neg hk, if_neg hn', habs]

/-- Witness for C2 at concrete inputs. -/
theorem createUpload_invalid_and_boundary_witness :
    (createUpload emptyDB "" "u" 5 = (some GofsErr.errFileKeyEmpty, emptyDB)) ∧
    (∃ e, createUpload emptyDB "k" "u" 0 = (some e, emptyDB) ∧ e.isInvalidArgument = true) ∧
    (∃ db', createUpload emptyDB "k" "u" 1 = (none, db')) :=
  ⟨(createUpload_invalid_and_boundary emptyDB "" "u" 5).1 rfl,
   (createUpload_invalid_and_boundary emptyDB "k" "u" 0).2.1 (Or.inl (by decide)),
   (createUpload_invalid_and_boundary emptyDB "k" "u" 1).2.2 (by decide) rfl (Or.inl rfl)⟩

/-- C3: on a key with no active record, `AddPart`, `GetUploadID`, `GetParts`,
`GetStatus` and `CompleteUpload` all fail with `ErrNotFound` and leave the
store unchanged, while `AbortUpload` succeeds and leaves the store unchanged;
when a record is present, `AbortUpload` succeeds, removes exactly that record
and leaves every other key unchanged. -/
theorem missing_key_behavior (db : InMemoryDB) (k : String) (p : Int) (t : String) :
    (db k = none →
      addPart db k p t = (some GofsErr.errNotFound, db) ∧
      getUploadID db k = .error .errNotFound ∧
      getParts db k = .error .errNotFound ∧
      getStatus db k = .error .errNotFound ∧
      completeUpload db k = (some GofsErr.errNotFound, db) ∧
      abortUpload db k = (none, db)) ∧
    (∀ r, db k = some r →
      (abortUpload db k).1 = none ∧ (abortUpload db k).2 k = none ∧
      ∀ k', k' ≠ k → (abortUpload db k).2 k' = db k') := by
  constructor
  · intro habs
    have herase : dbErase db k = db := by
      funext k'
      by_cases h : k' = k
      · subst h; unfold dbErase; rw [if_pos rfl, habs]
      · unfold dbErase; rw [if_neg h]
    refine ⟨?_, ?_, ?_, ?_, ?_, ?_⟩
    · unfold addPart; rw [habs]
    · unfold getUploadID; rw [habs]
    · unfold getParts; rw [habs]
    · unfold getStatus; rw [habs]
    · unfold completeUpload; rw [habs]
    · unfold abortUpload; rw [herase]
  · intro r _
    refine ⟨rfl, ?_, fun k' hk' => ?_⟩
    · show dbErase db k k = none
      unfold dbErase; rw [if_pos rfl]
    · show dbErase db k k' = db k'
      unfold dbErase; rw [if_neg hk']

/-- Witness for C3: the absent-key branch at the empty store, and the
present-key abort branch at a one-record store. -/
theorem missing_key_behavior_witness :
    (addPart emptyDB "k" 1 "t" = (some GofsErr.errNotFound, emptyDB) ∧
      getUploadID emptyDB "k" = .error .errNotFound ∧
      getParts emptyDB "k" = .error .errNotFound ∧
      getStatus emptyDB "k" = .error .errNotFound ∧
      completeUpload emptyDB "k" = (some GofsErr.errNotFound, emptyDB) ∧
      abortUpload emptyDB "k" = (none, emptyDB)) ∧
    (abortUpload (dbInsert emptyDB "k" ⟨"u", 1, []⟩) "k").2 "k" = none :=
  ⟨(missing_key_behavior emptyDB "k" 1 "t").1 rfl,
   (((missing_key_behavior (dbInsert emptyDB "k" ⟨"u", 1, []⟩) "k" 1 "t").2
      ⟨"u", 1, []⟩ rfl).2.1)⟩

/-- C4: a second `CreateUpload` on a key that already has an active record,
with any valid arguments, fails with `ErrAlreadyExists` and leaves the store —
in particular the existing record — unchanged. -/
theorem createUpload_duplicate_key (db : InMemoryDB) (k u' : String) (n' : Int)
    (r : InMemoryRecord) (hr : db k = some r) (hk : k ≠ "") (h1 : 1 ≤ n') (h2 : n' ≤ 10000) :
    createUpload db k u' n' = (some GofsErr.errAlreadyExists, db) ∧
    (createUpload db k u' n').2 k = some r := by
  have hn : ¬ (n' ≤ 0 ∨ 10000 < n') := by omega
  have h : createUpload db k u' n' = (some GofsErr.errAlreadyExists, db) := by
    unfold createUpload
    rw [if_neg hk, if_neg hn, hr]
  exact ⟨h, by rw [h]; exact hr⟩

/-- Witness for C4 at a concrete one-record store. -/
theorem createUpload_duplicate_key_witness :
    createUpload (dbInsert emptyDB "k" ⟨"u", 2, []⟩) "k" "u2" 3 =
      (some GofsErr.errAlreadyExists, dbInsert emptyDB "k" ⟨"u", 2, []⟩) ∧
    (createUpload (dbInsert emptyDB "k" ⟨"u", 2, []⟩) "k" "u2" 3).2 "k" =
      some ⟨"u", 2, []⟩ :=
  createUpload_duplicate_key (dbInsert emptyDB "k" ⟨"u", 2, []⟩) "k" "u2" 3
    ⟨"u", 2, []⟩ rfl (by decide) (by decide) (by decide)

/-- C5: `CompleteUpload` on a key with an active record succeeds regardless of
how many parts have been received (the record `r` is arbitrary, in particular
its parts map may be empty), removes the record — so `GetStatus`,
`GetUploadID` and `GetParts` on that key subsequently fail with `ErrNotFound`
— and leaves every other key's record unchanged. -/
theorem completeUpload_removes_record (db : InMemoryDB) (k : String) (r : InMemoryRecord)
    (hr : db k = some r) :
    (completeUpload db k).1 = none ∧
    getStatus (completeUpload db k).2 k = .error .errNotFound ∧
    getUploadID (completeUpload db k).2 k = .error .errNotFound ∧
    getParts (completeUpload db k).2 k = .error .errNotFound ∧
    ∀ k', k' ≠ k → (completeUpload db k).2 k' = db k' := by
  have h : completeUpload db k = (none, dbErase db k) := by
    unfold completeUpload; rw [hr]
  have h2 : (completeUpload db k).2 = dbErase db k := by rw [h]
  have hkk : dbErase db k k = none := by unfold dbErase; rw [if_pos rfl]
  refine ⟨by rw [h], ?_, ?_, ?_, fun k' hk' => ?_⟩
  · rw [h2]; unfold getStatus; rw [hkk]
  · rw [h2]; unfold getUploadID; rw [hkk]
  · rw [h2]; unfold getParts; rw [hkk]
  · rw [h2]
    show dbErase db k k' = db k'
    unfold dbErase; rw [if_neg hk']

/-- Witness for C5 at a one-record store whose record has zero parts. -/
theorem completeUpload_removes_record_witness :
    (completeUpload (dbInsert emptyDB "k" ⟨"u", 2, []⟩) "k").1 = none ∧
    getStatus (completeUpload (dbInsert emptyDB "k" ⟨"u", 2, []⟩) "k").2 "k" =
      .error .errNotFound :=
  ⟨(completeUpload_removes_record (dbInsert emptyDB "k" ⟨"u", 2, []⟩) "k"
      ⟨"u", 2, []⟩ rfl).1,
   (completeUpload_removes_record (dbInsert emptyDB "k" ⟨"u", 2, []⟩) "k"
      ⟨"u", 2, []⟩ rfl).2.1⟩

/-- C9: for every non-empty key absent from the store and `totalParts` in
`1..10000`, `CreateUpload` succeeds and an immediately following `GetUploadID`
returns exactly the stored `uploadID`. -/
theorem createUpload_then_getUploadID (db : InMemoryDB) (k u : String) (n : Int)
    (hk : k ≠ "") (h1 : 1 ≤ n) (h2 : n ≤ 10000) (habs : db k = none) :
    (createUpload db k u n).1 = none ∧
    getUploadID (createUpload db k u n).2 k = .ok u := by
  have hn : ¬ (n ≤ 0 ∨ 10000 < n) := by omega
  have h : createUpload db k u n = (none, dbInsert db k ⟨u, n, []⟩) := by
    unfold createUpload
    rw [if_neg hk, if_neg hn, habs]
  have h2 : (createUpload db k u n).2 = dbInsert db k ⟨u, n, []⟩ := by rw [h]
  refine ⟨by rw [h], ?_⟩
  rw [h2]
  simp [getUploadID, dbInsert]

/-- Witness for C9 at concrete inputs. -/
theorem createUpload_then_getUploadID_witness :
    (createUpload emptyDB "k" "uid-1" 3).1 = none ∧
    getUploadID (createUpload emptyDB "k" "uid-1" 3).2 "k" = .ok "uid-1" :=
  createUpload_then_getUploadID emptyDB "k" "uid-1" 3 (by decide) (by decide) (by decide) rfl

/-- C10: `CreateUpload` validates in a fixed precedence order — empty key
first, then the `totalParts` range, then key existence.  The store `db` is
arbitrary, in particular it may already hold a record for `k`: an empty key
yields `ErrFileKeyEmpty` (for any `totalParts`, in range or not), and a
non-empty key with out-of-range `totalParts` yields `ErrInvalidTotalParts`,
never `ErrAlreadyExists`; both failures return the store unchanged. -/
theorem createUpload_validation_precedence (db : InMemoryDB) (k u : String) (n : Int) :
    (k = "" → createUpload db k u n = (some GofsErr.errFileKeyEmpty, db)) ∧
    (k ≠ "" → (n ≤ 0 ∨ 10000 < n) →
      createUpload db k u n = (some GofsErr.errInvalidTotalParts, db)) := by
  constructor
  · intro hk
    unfold createUpload
    rw [if_pos hk]
  · intro hk hn
    unfold createUpload
    rw [if_neg hk, if_pos hn]

/-- Witness for C10 at a store that already holds a record for the key: the
out-of-range create still reports `ErrInvalidTotalParts`, not
`ErrAlreadyExists`. -/
theorem createUpload_validation_precedence_witness :
    createUpload (dbInsert emptyDB "k" ⟨"u", 1, []⟩) "" "u" 0 =
      (some GofsErr.errFileKeyEmpty, dbInsert emptyDB "k" ⟨"u", 1, []⟩) ∧
    createUpload (dbInsert emptyDB "k" ⟨"u", 1, []⟩) "k" "u" 10001 =
      (some GofsErr.errInvalidTotalParts, dbInsert emptyDB "k" ⟨"u", 1, []⟩) :=
  ⟨(createUpload_validation_precedence (dbInsert emptyDB "k" ⟨"u", 1, []⟩) "" "u" 0).1 rfl,
   (createUpload_validation_precedence (dbInsert emptyDB "k" ⟨"u", 1, []⟩) "k" "u" 10001).2
      (by decide) (by decide)⟩

/-- Keys of the parts map. -/
def keysOf (m : List (Int × InMemoryPart)) : List Int := m.map Prod.fst

/-- Number of distinct elements of a list of part numbers. -/
def countDistinct (l : List Int) : Nat := l.dedup.length

/-- Folding a list of `(partNumber, eTag)` insertions into a parts map, the
way a sequence of `AddPart` calls builds one. -/
def addAll (m : List (Int × InMemoryPart)) (adds : List (Int × String)) :
    List (Int × InMemoryPart) :=
  adds.foldl (fun acc pt => mapInsert pt.1 ⟨pt.1, pt.2⟩ acc) m

/-- The store after a sequence of `AddPart` calls on key `k`. -/
def runAdds (db : InMemoryDB) (k : String) (adds : List (Int × String)) : InMemoryDB :=
  adds.foldl (fun s pt => (addPart s k pt.1 pt.2).2) db

theorem keysOf_cons (x : Int × InMemoryPart) (l : List (Int × InMemoryPart)) :
    keysOf (x :: l) = x.1 :: keysOf l := rfl

theorem mem_keysOf_mapInsert (p q : Int) (v : InMemoryPart) (m : List (Int × InMemoryPart)) :
    q ∈ keysOf (mapInsert p v m) ↔ q = p ∨ q ∈ keysOf m := by
  induction m with
  | nil => simp [mapInsert, keysOf]
  | cons a rest ih =>
    obtain ⟨a1, a2⟩ := a
    have e : mapInsert p v ((a1, a2) :: rest) =
        if a1 = p then (p, v) :: rest else (a1, a2) :: mapInsert p v rest := rfl
    by_cases hh : a1 = p
    · rw [e, if_pos hh, keysOf_cons, keysOf_cons]
      subst hh
      simp only [List.mem_cons]
      tauto
    · rw [e, if_neg hh, keysOf_cons, keysOf_cons]
      simp only [List.mem_cons, ih]
      tauto

theorem nodup_keysOf_mapInsert (p : Int) (v : InMemoryPart) (m : List (Int × InMemoryPart))
    (h : (keysOf m).Nodup) : (keysOf (mapInsert p v m)).Nodup := by
  induction m with
  | nil => simp [mapInsert, keysOf]
  | cons a rest ih =>
    obtain ⟨a1, a2⟩ := a
    rw [keysOf_cons, List.nodup_cons] at h
    have e : mapInsert p v ((a1, a2) :: rest) =
        if a1 = p then (p, v) :: rest else (a1, a2) :: mapInsert p v rest := rfl
    by_cases hh : a1 = p
    · rw [e, if_pos hh, keysOf_cons, List.nodup_cons]
      subst hh
      exact h
    · rw [e, if_neg hh, keysOf_cons, List.nodup_cons]
      refine ⟨fun hmem => ?_, ih h.2⟩
      rw [mem_keysOf_mapInsert] at hmem
      rcases hmem with h1 | h1
      · exact hh h1
      · exact h.1 h1

theorem toFinset_keysOf_mapInsert (p : Int) (v : InMemoryPart) (m : List (Int × InMemoryPart)) :
    (keysOf (mapInsert p v m)).toFinset = insert p (keysOf m).toFinset := by
  ext q
  simp [mem_keysOf_mapInsert]

theorem toFinset_keysOf_addAll (adds : List (Int × String)) :
    ∀ m, (keysOf (addAll m adds)).toFinset =
      (keysOf m).toFinset ∪ (adds.map Prod.fst).toFinset := by
  induction adds with
  | nil => intro m; simp [addAll]
  | cons pt rest ih =>
    intro m
    have hstep : addAll m (pt :: rest) = addAll (mapInsert pt.1 ⟨pt.1, pt.2⟩ m) rest := rfl
    rw [hstep, ih, toFinset_keysOf_mapInsert, List.map_cons, List.toFinset_cons,
      Finset.insert_union, Finset.union_insert]

theorem nodup_keysOf_addAll (adds : List (Int × String)) :
    ∀ m, (keysOf m).Nodup → (keysOf (addAll m adds)).Nodup := by
  induction adds with
  | nil => intro m h; exact h
  | cons pt rest ih => intro m h; exact ih _ (nodup_keysOf_mapInsert _ _ _ h)

theorem length_addAll_nil (adds : List (Int × String)) :
    (addAll [] adds).length = countDistinct (adds.map Prod.fst) := by
  have hnd : (keysOf (addAll [] adds)).Nodup := nodup_keysOf_addAll adds [] (by simp [keysOf])
  have hlen : (addAll [] adds).length = (keysOf (addAll [] adds)).length := by
    simp [keysOf]
  rw [hlen, ← List.toFinset_card_of_nodup hnd, toFinset_keysOf_addAll,
    countDistinct, ← List.card_toFinset]
  simp [keysOf]

theorem length_mapInsert_hasKey (p : Int) (v : InMemoryPart) (m : List (Int × InMemoryPart))
    (h : hasKey m p = true) : (mapInsert p v m).length = m.length := by
  induction m with
  | nil => simp [hasKey] at h
  | cons a rest ih =>
    obtain ⟨a1, a2⟩ := a
    by_cases hh : a1 = p
    · simp [mapInsert, hh]
    · have h' : hasKey rest p = true := by
        simp only [hasKey, List.any_cons, Bool.or_eq_true, decide_eq_true_eq] at h ⊢
        tauto
      simp [mapInsert, hh, ih h']

theorem mapFind_mapInsert_self (p : Int) (v : InMemoryPart) (m : List (Int × InMemoryPart)) :
    mapFind p (mapInsert p v m) = some v := by
  induction m with
  | nil => simp [mapInsert, mapFind]
  | cons a rest ih =>
    obtain ⟨a1, a2⟩ := a
    by_cases hh : a1 = p
    · simp [mapInsert, hh, mapFind]
    · simp [mapInsert, hh, mapFind, ih]

theorem runAdds_record (k : String) (adds : List (Int × String)) :
    ∀ (db : InMemoryDB) (r : InMemoryRecord), db k = some r →
      runAdds db k adds k = some { r with parts := addAll r.parts adds } := by
  induction adds with
  | nil => intro db r h; exact h
  | cons pt rest ih =>
    intro db r h
    have hstep : (addPart db k pt.1 pt.2).2 =
        dbInsert db k { r with parts := mapInsert pt.1 ⟨pt.1, pt.2⟩ r.parts } := by
      unfold addPart; rw [h]
    have hkk : dbInsert db k { r with parts := mapInsert pt.1 ⟨pt.1, pt.2⟩ r.parts } k =
        some { r with parts := mapInsert pt.1 ⟨pt.1, pt.2⟩ r.parts } := by
      unfold dbInsert; rw [if_pos rfl]
    show runAdds (addPart db k pt.1 pt.2).2 k rest k = _
    rw [hstep]
    exact ih _ _ hkk

/-- C1: after creating a record with `totalParts = n` on a key absent from an
arbitrary store and then performing any sequence of `AddPart` calls on that
key, `GetStatus` returns a record whose `CompletedPartsNum` equals the number
of distinct part numbers in the sequence and whose `IsCompleted` holds exactly
when that count equals `n`; moreover re-adding an already-present part number
keeps `CompletedPartsNum` unchanged and overwrites the stored tag. -/
theorem getStatus_reports_distinct_adds (db : InMemoryDB) (k u : String) (n : Int)
    (adds : List (Int × String)) (hk : k ≠ "") (h1 : 1 ≤ n) (h2 : n ≤ 10000)
    (habs : db k = none) :
    (∃ r, getStatus (runAdds (createUpload db k u n).2 k adds) k = .ok r ∧
      r.CompletedPartsNum = (countDistinct (adds.map Prod.fst) : Int) ∧
      r.totalParts = n ∧
      (r.IsCompleted = true ↔ r.CompletedPartsNum = n)) ∧
    (∀ (s : InMemoryDB) (r0 : InMemoryRecord) (p : Int) (t' : String),
      s k = some r0 → hasKey r0.parts p = true →
      ∃ r1, (addPart s k p t').2 k = some r1 ∧
        r1.CompletedPartsNum = r0.CompletedPartsNum ∧
        mapFind p r1.parts = some ⟨p, t'⟩) := by
  constructor
  · have hn : ¬ (n ≤ 0 ∨ 10000 < n) := by omega
    have hcr : (createUpload db k u n).2 = dbInsert db k ⟨u, n, []⟩ := by
      unfold createUpload; rw [if_neg hk, if_neg hn, habs]
    have hk0 : dbInsert db k ⟨u, n, []⟩ k = some ⟨u, n, []⟩ := by
      unfold dbInsert; rw [if_pos rfl]
    have hrec := runAdds_record k adds (dbInsert db k ⟨u, n, []⟩) ⟨u, n, []⟩ hk0
    refine ⟨⟨u, n, addAll [] adds⟩, ?_, ?_, rfl, ?_⟩
    · rw [hcr]; unfold getStatus; rw [hrec]
    · show ((addAll [] adds).length : Int) = _
      rw [length_addAll_nil]
    · unfold InMemoryRecord.IsCompleted InMemoryRecord.CompletedPartsNum
      simp [beq_iff_eq]
  · intro s r0 p t' hs hhk
    have hstep : (addPart s k p t').2 =
        dbInsert s k { r0 with parts := mapInsert p ⟨p, t'⟩ r0.parts } := by
      unfold addPart; rw [hs]
    refine ⟨{ r0 with parts := mapInsert p ⟨p, t'⟩ r0.parts }, ?_, ?_,
      mapFind_mapInsert_self p ⟨p, t'⟩ r0.parts⟩
    · rw [hstep]; unfold dbInsert; rw [if_pos rfl]
    · show ((mapInsert p ⟨p, t'⟩ r0.parts).length : Int) = (r0.parts.length : Int)
      rw [length_mapInsert_hasKey p ⟨p, t'⟩ r0.parts hhk]

/-- Witness for C1: three adds on a two-part upload, one of them a re-add of
part 1, yield two distinct parts and a completed status; and a concrete
re-add leaves the count at one while overwriting the tag. -/
theorem getStatus_reports_distinct_adds_witness :
    (∃ r, getStatus (runAdds (createUpload emptyDB "k" "u" 2).2 "k"
        [(1, "a"), (1, "b"), (2, "c")]) "k" = .ok r ∧
      r.CompletedPartsNum = (countDistinct ([(1, "a"), (1, "b"), (2, "c")].map Prod.fst) : Int) ∧
      r.totalParts = 2 ∧
      (r.IsCompleted = true ↔ r.CompletedPartsNum = 2)) ∧
    (∃ r1, (addPart (dbInsert emptyDB "k" ⟨"u", 2, [(1, ⟨1, "a"⟩)]⟩) "k" 1 "b").2 "k" =
        some r1 ∧
      r1.CompletedPartsNum = (⟨"u", 2, [(1, ⟨1, "a"⟩)]⟩ : InMemoryRecord).CompletedPartsNum ∧
      mapFind 1 r1.parts = some ⟨1, "b"⟩) :=
  ⟨(getStatus_reports_distinct_adds emptyDB "k" "u" 2 [(1, "a"), (1, "b"), (2, "c")]
      (by decide) (by decide) (by decide) rfl).1,
   (getStatus_reports_distinct_adds emptyDB "k" "u" 2 []
      (by decide) (by decide) (by decide) rfl).2
      (dbInsert emptyDB "k" ⟨"u", 2, [(1, ⟨1, "a"⟩)]⟩) ⟨"u", 2, [(1, ⟨1, "a"⟩)]⟩ 1 "b"
      rfl (by decide)⟩

/-- One call to one of the seven `DB` operations, with its arguments. -/
inductive StoreOp where
  | createUpload (key uploadID : String) (totalParts : Int)
  | addPart (key : String) (partNumber : Int) (eTag : String)
  | completeUpload (key : String)
  | abortUpload (key : String)
  | getUploadID (key : String)
  | getParts (key : String)
  | getStatus (key : String)

/-- The store after one operation (the read operations do not mutate it). -/
def applyOp (db : InMemoryDB) : StoreOp → InMemoryDB
  | .createUpload k u n => (createUpload db k u n).2
  | .addPart k p t => (addPart db k p t).2
  | .completeUpload k => (completeUpload db k).2
  | .abortUpload k => (abortUpload db k).2
  | .getUploadID _ => db
  | .getParts _ => db
  | .getStatus _ => db

/-- The store after a sequence of operations. -/
def runOps (db : InMemoryDB) (ops : List StoreOp) : InMemoryDB :=
  ops.foldl applyOp db

/-- All part numbers of the record lie in `1..totalParts`. -/
def partsInRange (r : InMemoryRecord) : Prop :=
  ∀ p, p ∈ keysOf r.parts → 1 ≤ p ∧ p ≤ r.totalParts

/-- Every active record's parts map contains only part numbers in
`1..totalParts` of that record. -/
def storeInvariant (db : InMemoryDB) : Prop :=
  ∀ k r, db k = some r → partsInRange r

/-- Guard matching the orchestrator's upstream validation: an `AddPart` call
only carries a part number within `1..totalParts` of the record it targets;
all other operations are unrestricted. -/
def opGuard (db : InMemoryDB) : StoreOp → Prop
  | .addPart k p _ => ∀ r, db k = some r → 1 ≤ p ∧ p ≤ r.totalParts
  | _ => True

/-- Stores reachable from the empty store by operation sequences whose
`AddPart` calls satisfy `opGuard` at the state where they execute. -/
inductive ReachableGuarded : InMemoryDB → Prop where
  | base : ReachableGuarded emptyDB
  | step (db : InMemoryDB) (op : StoreOp) (hdb : ReachableGuarded db)
      (hop : opGuard db op) : ReachableGuarded (applyOp db op)

theorem storeInvariant_applyOp (db : InMemoryDB) (op : StoreOp)
    (hinv : storeInvariant db) (hop : opGuard db op) : storeInvariant (applyOp db op) := by
  cases op with
  | createUpload k u n =>
    show storeInvariant (createUpload db k u n).2
    by_cases hk : k = ""
    · rw [show (createUpload db k u n).2 = db by unfold createUpload; rw [if_pos hk]]
      exact hinv
    · by_cases hn : n ≤ 0 ∨ 10000 < n
      · rw [show (createUpload db k u n).2 = db by unfold createUpload; rw [if_neg hk, if_pos hn]]
        exact hinv
      · cases hdb : db k with
        | some r =>
          rw [show (createUpload db k u n).2 = db by
            unfold createUpload; rw [if_neg hk, if_neg hn, hdb]]
          exact hinv
        | none =>
          rw [show (createUpload db k u n).2 = dbInsert db k ⟨u, n, []⟩ by
            unfold createUpload; rw [if_neg hk, if_neg hn, hdb]]
          intro k' r' hr'
          unfold dbInsert at hr'
          by_cases hkk : k' = k
          · rw [if_pos hkk] at hr'
            cases hr'
            intro q hq
            exact absurd hq (by simp [keysOf])
          · rw [if_neg hkk] at hr'
            exact hinv k' r' hr'
  | addPart k p t =>
    show storeInvariant (addPart db k p t).2
    cases hdb : db k with
    | none =>
      rw [show (addPart db k p t).2 = db by unfold addPart; rw [hdb]]
      exact hinv
    | some r =>
      rw [show (addPart db k p t).2 =
          dbInsert db k { r with parts := mapInsert p ⟨p, t⟩ r.parts } by
        unfold addPart; rw [hdb]]
      intro k' r' hr'
      unfold dbInsert at hr'
      by_cases hkk : k' = k
      · rw [if_pos hkk] at hr'
        cases hr'
        intro q hq
        rw [show ({ r with parts := mapInsert p ⟨p, t⟩ r.parts } : InMemoryRecord).parts =
          mapInsert p ⟨p, t⟩ r.parts from rfl, mem_keysOf_mapInsert] at hq
        rcases hq with rfl | hq
        · exact hop r hdb
        · exact hinv k r hdb q hq
      · rw [if_neg hkk] at hr'
        exact hinv k' r' hr'
  | completeUpload k =>
    show storeInvariant (completeUpload db k).2
    cases hdb : db k with
    | none =>
      rw [show (completeUpload db k).2 = db by unfold completeUpload; rw [hdb]]
      exact hinv
    | some r =>
      rw [show (completeUpload db k).2 = dbErase db k by unfold completeUpload; rw [hdb]]
      intro k' r' hr'
      unfold dbErase at hr'
      by_cases hkk : k' = k
      · rw [if_pos hkk] at hr'
        cases hr'
      · rw [if_neg hkk] at hr'
        exact hinv k' r' hr'
  | abortUpload k =>
    show storeInvariant (dbErase db k)
    intro k' r' hr'
    unfold dbErase at hr'
    by_cases hkk : k' = k
    · rw [if_pos hkk] at hr'
      cases hr'
    · rw [if_neg hkk] at hr'
      exact hinv k' r' hr'
  | getUploadID k => exact hinv
  | getParts k => exact hinv
  | getStatus k => exact hinv

/-- C6 counterexample: the claim as stated is false — the store itself does
not validate part numbers on `AddPart`, so a record created with
`totalParts = 1` can come to hold part number 2 after two operations from the
empty store. -/
theorem parts_range_invariant_counterexample :
    ¬ ∀ ops : List StoreOp, storeInvariant (runOps emptyDB ops) := by
  intro h
  have h2 := h [.createUpload "k" "u" 1, .addPart "k" 2 "t"] "k" ⟨"u", 1, [(2, ⟨2, "t"⟩)]⟩
    (by decide) 2 (by decide)
  have h3 : (2 : Int) ≤ 1 := h2.2
  omega

/-- C6 amended: in every store state reachable from the empty store by a
sequence of the seven operations in which each `AddPart` call's part number
lies within `1..totalParts` of the record it targets (the upstream validation
the orchestrator performs; the store itself does not enforce it), every
active record's parts map contains only part numbers in `1..totalParts`. -/
theorem parts_range_invariant_guarded (db : InMemoryDB) (h : ReachableGuarded db) :
    storeInvariant db := by
  induction h with
  | base =>
    intro k r hr
    exact absurd hr (by simp [emptyDB])
  | step db op hdb hop ih => exact storeInvariant_applyOp db op ih hop

/-- Witness for the amended C6 at a concrete guarded two-operation run. -/
theorem parts_range_invariant_guarded_witness :
    storeInvariant (applyOp (applyOp emptyDB (.createUpload "k" "u" 2)) (.addPart "k" 1 "t")) :=
  parts_range_invariant_guarded _
    (.step _ _ (.step _ _ .base trivial)
      (by
        intro r hr
        rw [show applyOp emptyDB (StoreOp.createUpload "k" "u" 2) "k" = some ⟨"u", 2, []⟩
          by decide] at hr
        cases hr
        decide))

/-- Predefined errors of the storage package (src/storage/errors.go) that the
multipart entry points can return before calling the object store. -/
inductive StorageErr where
  | errMissedUploadID
  | errNoCompletedParts
  | errTotalParts
  | errPartNum
deriving DecidableEq, Repr

/-- Embedding of the storage package's `CompletedPart` value: a part number
paired with its integrity tag. -/
structure CompletedPart where
  partNumber : Int
  etag : String
deriving DecidableEq, Repr

/-- Comparison used by `CompleteMultipartUpload`'s sort: ascending part
number. -/
def partLE (a b : CompletedPart) : Prop := a.partNumber ≤ b.partNumber

instance : DecidableRel partLE := fun a b => Int.decLe a.partNumber b.partNumber

instance : IsTotal CompletedPart partLE := ⟨fun a b => Int.le_total a.partNumber b.partNumber⟩

instance : IsTrans CompletedPart partLE := ⟨fun _ _ _ hab hbc => le_trans hab hbc⟩

/-- Sorting step of `Interactor.CompleteMultipartUpload`.  The Go code calls
`sort.Slice` with the comparison `PartNumber() < PartNumber()`, an
unspecified comparison sort; it is modelled by insertion sort, and only the
properties every comparison sort guarantees (a permutation of the input,
sorted by ascending part number) are proved about it. -/
def sortByPartNumber (parts : List CompletedPart) : List CompletedPart :=
  List.insertionSort partLE parts

/-- Embedding of `Interactor.CompleteMultipartUpload` (part_002): on success
the returned list is the `Parts` sequence handed to the object store's
complete-chunked-upload call (each element's tag and part number are copied
verbatim into the request); an error is returned before any object-store
call is made.  The filename argument does not affect this control flow and
is omitted. -/
def completeMultipartUpload (uploadID : String) (completedParts : List CompletedPart) :
    Except StorageErr (List CompletedPart) :=
  if uploadID = "" then .error .errMissedUploadID
  else if completedParts = [] then .error .errNoCompletedParts
  else .ok (sortByPartNumber completedParts)

/-- Embedding of the validation front of `Interactor.UploadPart` (part_002):
`.ok` means all pre-dispatch checks passed and the chunk proceeds toward the
object store; every `.error` is returned before any chunk is sent.  The
filename and chunk bytes do not affect this control flow and are omitted. -/
def uploadPart (uploadID : String) (partNum totalParts : Int) : Except StorageErr Unit :=
  if uploadID = "" then .error .errMissedUploadID
  else if totalParts = 0 ∨ 10000 < totalParts then .error .errTotalParts
  else if partNum < 1 ∨ totalParts < partNum then .error .errPartNum
  else .ok ()

/-- C7: with a non-empty uploadID and a non-empty collection of parts,
`CompleteMultipartUpload` hands the object store exactly the given parts
(a permutation, so the same part numbers paired with the same tags) in
ascending part-number order; with an empty collection it fails with
`ErrNoCompletedParts`, and with an empty uploadID with `ErrMissedUploadID`,
in both cases before calling the object store. -/
theorem completeMultipartUpload_sorted_parts (u : String) (parts : List CompletedPart) :
    (u ≠ "" → parts ≠ [] →
      completeMultipartUpload u parts = .ok (sortByPartNumber parts) ∧
      (sortByPartNumber parts).Perm parts ∧
      (sortByPartNumber parts).Sorted partLE) ∧
    (u ≠ "" → parts = [] →
      completeMultipartUpload u parts = .error .errNoCompletedParts) ∧
    (u = "" → completeMultipartUpload u parts = .error .errMissedUploadID) := by
  refine ⟨fun hu hp => ⟨?_, List.perm_insertionSort partLE parts,
      List.sorted_insertionSort partLE parts⟩, fun hu hp => ?_, fun hu => ?_⟩
  · unfold completeMultipartUpload
    rw [if_neg hu, if_neg hp]
  · unfold completeMultipartUpload
    rw [if_neg hu, if_pos hp]
  · unfold completeMultipartUpload
    rw [if_pos hu]

/-- Witness for C7: two parts arriving out of order, the empty-parts failure
and the empty-uploadID failure, at concrete inputs. -/
theorem completeMultipartUpload_sorted_parts_witness :
    (completeMultipartUpload "u" [⟨2, "b"⟩, ⟨1, "a"⟩] =
        .ok (sortByPartNumber [⟨2, "b"⟩, ⟨1, "a"⟩]) ∧
      (sortByPartNumber [⟨2, "b"⟩, ⟨1, "a"⟩]).Perm [⟨2, "b"⟩, ⟨1, "a"⟩] ∧
      (sortByPartNumber [⟨2, "b"⟩, ⟨1, "a"⟩]).Sorted partLE) ∧
    completeMultipartUpload "u" [] = .error .errNoCompletedParts ∧
    completeMultipartUpload "" [] = .error .errMissedUploadID :=
  ⟨(completeMultipartUpload_sorted_parts "u" [⟨2, "b"⟩, ⟨1, "a"⟩]).1 (by decide) (by decide),
   (completeMultipartUpload_sorted_parts "u" []).2.1 (by decide) rfl,
   (completeMultipartUpload_sorted_parts "" []).2.2 rfl⟩

/-- C8 counterexample: `totalParts = -1` lies outside `1..10000`, yet
`UploadPart` with a non-empty uploadID reports `ErrPartNum`, not
`ErrTotalParts` — the code only tests `totalParts == 0 || totalParts > 10000`
before the part-number check. -/
theorem uploadPart_negative_totalParts_counterexample :
    ¬ ((-1 : Int) ≥ 1 ∧ (-1 : Int) ≤ 10000) ∧
    uploadPart "u" 1 (-1) = .error .errPartNum ∧
    uploadPart "u" 1 (-1) ≠ .error .errTotalParts := by
  refine ⟨by decide, rfl, fun h => ?_⟩
  rw [show uploadPart "u" 1 (-1) = (.error .errPartNum : Except StorageErr Unit) from rfl] at h
  cases Except.error.inj h

/-- C8 amended: with a non-empty uploadID, `totalParts = 0` or
`totalParts > 10000` fails with `ErrTotalParts`; a negative `totalParts`
fails with `ErrPartNum` instead (no part number can satisfy
`1 ≤ partNum ≤ totalParts` then); and `totalParts` in `1..10000` with
`partNum` outside `1..totalParts` fails with `ErrPartNum`.  In all these
cases `uploadPart` returns before any chunk is sent to the object store. -/
theorem uploadPart_range_validation (u : String) (pn tp : Int) (hu : u ≠ "") :
    ((tp = 0 ∨ 10000 < tp) → uploadPart u pn tp = .error .errTotalParts) ∧
    (tp < 0 → uploadPart u pn tp = .error .errPartNum) ∧
    (1 ≤ tp → tp ≤ 10000 → (pn < 1 ∨ tp < pn) → uploadPart u pn tp = .error .errPartNum) := by
  refine ⟨fun h => ?_, fun h => ?_, fun h1 h2 h3 => ?_⟩
  · unfold uploadPart
    rw [if_neg hu, if_pos h]
  · have h0 : ¬ (tp = 0 ∨ 10000 < tp) := by omega
    have h4 : pn < 1 ∨ tp < pn := by omega
    unfold uploadPart
    rw [if_neg hu, if_neg h0, if_pos h4]
  · have h0 : ¬ (tp = 0 ∨ 10000 < tp) := by omega
    unfold uploadPart
    rw [if_neg hu, if_neg h0, if_pos h3]

/-- Witness for the amended C8 at concrete inputs. -/
theorem uploadPart_range_validation_witness :
    uploadPart "u" 1 0 = .error .errTotalParts ∧
    uploadPart "u" 1 (-5) = .error .errPartNum ∧
    uploadPart "u" 7 5 = .error .errPartNum :=
  ⟨(uploadPart_range_validation "u" 1 0 (by decide)).1 (Or.inl rfl),
   (uploadPart_range_validation "u" 1 (-5) (by decide)).2.1 (by decide),
   (uploadPart_range_validation "u" 7 5 (by decide)).2.2 (by decide) (by decide)
      (Or.inr (by decide))⟩
